import Mathlib

/-!
# Verification of the durable job scheduling engine

Shallow embedding of the scheduling/dedup/cooldown engine of this repository:

* `src/infra/sqlite.js` — durable store (`jobs` table, `kv` table,
  `upsertJob`, `fetchDueJobs`, `markJob`, `getKV`/`setKV`,
  `findActiveJobByCandidate`);
* `src/infra/scheduler.js` — `computeBackoffMs`, `runJob` (the variant with
  retry/backoff, the one the specification describes);
* `src/index.js` — the per-type `executor`;
* `src/api/routes.js` — the `/zoho-candidate/edit` (prehire) and
  `/zoho-webhook/delete` (offboarding) handlers.

Conventions of the embedding:

* JS strings are `List Char`; timestamps (`Date.now()`, `runAt`, cooldown
  markers) are `Int` milliseconds since the Unix epoch.
* The business time zone `Asia/Kolkata` is a fixed +05:30 offset with no DST,
  so luxon's `minus({days})`/`set({hour,minute})` arithmetic on a parsed
  calendar day is exact millisecond arithmetic; a parsed `dd-LL-yyyy` date is
  represented by its calendar day number `d : Int`, whose IST midnight is the
  UTC instant `d * 86400000 - 19800000` ms.  Luxon's format parsing itself is
  abstracted: handlers take the parse result (`Option Int`) as an input.
* JS float arithmetic in `computeBackoffMs` is modelled exactly over `ℚ`;
  `Math.random()*2-1` is an explicit jitter input `u`.
* External collaborators (Microsoft Graph, Zoho, mail) are parameters: the
  executor model takes the outcome each handler branch would reach, and the
  offboarding route takes the outcome of its synchronous user
  lookup/disable sequence.
-/

namespace Engine

/-- Job `status` column values (`src/infra/sqlite.js` / §4.3 of the spec). -/
inductive JobStatus where
  | pending
  | running
  | done
  | failed
  | cancelled
deriving DecidableEq, Repr

/-- A row of the `jobs` table (`CREATE TABLE jobs` in `src/infra/sqlite.js`).
`payload` is the serialized JSON text stored in the `payload` column. -/
structure Job where
  id : Nat
  type : List Char
  runAt : Int
  status : JobStatus
  attempts : Nat
  payload : List Char
  lastError : Option (List Char)
  result : Option (List Char)
deriving DecidableEq, Repr

/-- The durable store: the `jobs` table, the `kv` table and the
autoincrement counter backing `last_insert_rowid()`. -/
structure Store where
  jobs : List Job
  kv : List (List Char × List Char)
  nextId : Nat
deriving DecidableEq, Repr

/-- The partial update accepted by `markJob(id, fields)`: absent fields are
left unchanged; `lastError` can be explicitly set to SQL `NULL`
(`some none`). -/
structure MarkFields where
  status : Option JobStatus := none
  attempts : Option Nat := none
  lastError : Option (Option (List Char)) := none
  runAt : Option Int := none
  result : Option (List Char) := none

/-- Apply a `markJob` field update to one row. -/
def applyMark (f : MarkFields) (j : Job) : Job :=
  { j with
    status := f.status.getD j.status
    attempts := f.attempts.getD j.attempts
    lastError := f.lastError.getD j.lastError
    runAt := f.runAt.getD j.runAt
    result := (f.result.map some).getD j.result }

/-- `markJob(id, fields)` — `UPDATE jobs SET ... WHERE id = ?`
(`src/infra/sqlite.js`). -/
def markJob (s : Store) (id : Nat) (f : MarkFields) : Store :=
  { s with jobs := s.jobs.map fun j => if j.id = id then applyMark f j else j }

/-- `upsertJob({type, runAt, payload})` — inserts a fresh `pending` row and
returns `last_insert_rowid()` (`src/infra/sqlite.js`). -/
def upsertJob (s : Store) (ty : List Char) (runAt : Int) (payload : List Char) :
    Store × Nat :=
  let j : Job :=
    { id := s.nextId, type := ty, runAt := runAt, status := .pending
      attempts := 0, payload := payload, lastError := none, result := none }
  ({ s with jobs := s.jobs ++ [j], nextId := s.nextId + 1 }, s.nextId)

/-- `fetchDueJobs(nowMs)` — `SELECT ... WHERE status = 'pending' AND
runAt <= ? ORDER BY runAt ASC LIMIT 20` (`src/infra/sqlite.js`). -/
def fetchDueJobs (s : Store) (now : Int) : List Job :=
  ((s.jobs.filter fun j => j.status = .pending ∧ j.runAt ≤ now).mergeSort
    fun a b => a.runAt ≤ b.runAt).take 20

/-- `getKV(key)` (`src/infra/sqlite.js`). -/
def getKV (s : Store) (key : List Char) : Option (List Char) :=
  (s.kv.find? fun p => p.1 = key).map (·.2)

/-- `setKV(key, value)` — upsert (`src/infra/sqlite.js`). -/
def setKV (s : Store) (key value : List Char) : Store :=
  { s with
    kv :=
      if s.kv.any fun p => p.1 = key then
        s.kv.map fun p => if p.1 = key then (key, value) else p
      else s.kv ++ [(key, value)] }

/-! ## Substring matching (SQL `LIKE '%...%'`)

`findActiveJobByCandidate` matches the payload with the pattern
`%"candidateId":"<id>"%`; a `%x%` pattern matches exactly the strings
containing `x` as a contiguous substring. -/

/-- `leadsList p s`: `p` is an initial segment of `s`. -/
def leadsList : List Char → List Char → Bool
  | [], _ => true
  | _ :: _, [] => false
  | a :: p, b :: s => a = b && leadsList p s

/-- `occursIn p s`: `p` occurs contiguously inside `s`
(the SQL `LIKE '%p%'` test). -/
def occursIn (p : List Char) : List Char → Bool
  | [] => leadsList p []
  | b :: s => leadsList p (b :: s) || occursIn p s

theorem leadsList_iff (p s : List Char) :
    leadsList p s = true ↔ ∃ r, s = p ++ r := by
  induction p generalizing s with
  | nil => simp [leadsList]
  | cons a p ih =>
    cases s with
    | nil => simp [leadsList]
    | cons b s =>
      simp only [leadsList, Bool.and_eq_true, decide_eq_true_eq, ih]
      constructor
      · rintro ⟨rfl, r, rfl⟩; exact ⟨r, rfl⟩
      · rintro ⟨r, h⟩
        injection h with h1 h2
        exact ⟨h1.symm, r, h2⟩

theorem occursIn_iff (p s : List Char) :
    occursIn p s = true ↔ ∃ l r, s = l ++ p ++ r := by
  induction s with
  | nil =>
    simp only [occursIn, leadsList_iff]
    constructor
    · rintro ⟨r, h⟩
      exact ⟨[], r, by simpa using h⟩
    · rintro ⟨l, r, h⟩
      refine ⟨r, ?_⟩
      cases l with
      | nil => simpa using h
      | cons x xs => simp at h
  | cons b s ih =>
    simp only [occursIn, Bool.or_eq_true, leadsList_iff, ih]
    constructor
    · rintro (⟨r, h⟩ | ⟨l, r, h⟩)
      · exact ⟨[], r, by simpa using h⟩
      · exact ⟨b :: l, r, by simp [h]⟩
    · rintro ⟨l, r, h⟩
      cases l with
      | nil => exact Or.inl ⟨r, by simpa using h⟩
      | cons x xs =>
        injection h with h1 h2
        exact Or.inr ⟨xs, r, h2⟩

/-- `status IN ('pending','running')`. -/
def isActive (st : JobStatus) : Bool :=
  st = .pending || st = .running

/-- The `LIKE` pattern body built in `findActiveJobByCandidate`:
`"candidateId":"<cid>"`. -/
def candPattern (cid : List Char) : List Char :=
  '"' :: "candidateId".data ++ '"' :: ':' :: '"' :: cid ++ ['"']

/-- `ORDER BY runAt DESC LIMIT 1` over the filtered rows: keep the row with
the largest `runAt` (row order among equal `runAt` is unspecified in SQL;
the model keeps the first such row). -/
def pickLatest : Option Job → Job → Option Job
  | none, j => some j
  | some k, j => if k.runAt < j.runAt then some j else some k

/-- `findActiveJobByCandidate(type, candidateId)` (`src/infra/sqlite.js`):
most recent `pending`/`running` job of the given type whose payload contains
`"candidateId":"<id>"`. -/
def findActiveJobByCandidate (jobs : List Job) (ty cid : List Char) :
    Option Job :=
  (jobs.filter fun j =>
      j.type = ty && isActive j.status && occursIn (candPattern cid) j.payload
    ).foldl pickLatest none

/-! ## JSON serialization (`JSON.stringify` of the payload objects)

The payload objects built by the routes hold only string, number and `null`
values, so the relevant fragment of `JSON.stringify` is: `\x7b"k":v,...\x7d`
with string values quoted and escaped (`"` → `\"`, `\` → `\\`) and numbers
rendered in decimal.  Keys whose value is `undefined` are dropped by
`JSON.stringify`; the field-list builders below simply omit them. -/

/-- A JSON scalar value as stored in the payloads. -/
inductive JVal where
  | s (v : List Char)
  | n (v : Nat)
  | null
deriving DecidableEq, Repr

/-- JSON string escaping of `JSON.stringify` for the characters that occur
in this repository's payloads (`"` and `\`; control characters play no role
in the claims and are passed through). -/
def esc : List Char → List Char
  | [] => []
  | c :: cs => if c = '"' ∨ c = '\\' then '\\' :: c :: esc cs else c :: esc cs

/-- Decimal digit character. -/
def digitCh (d : Nat) : Char :=
  if d = 0 then '0' else if d = 1 then '1' else if d = 2 then '2'
  else if d = 3 then '3' else if d = 4 then '4' else if d = 5 then '5'
  else if d = 6 then '6' else if d = 7 then '7' else if d = 8 then '8'
  else '9'

/-- Decimal digits of a positive natural, most significant first. -/
def natCharsAux (n : Nat) : List Char :=
  if h : n = 0 then []
  else natCharsAux (n / 10) ++ [digitCh (n % 10)]
decreasing_by exact Nat.div_lt_self (Nat.pos_of_ne_zero h) (by decide)

/-- `String(n)` / `JSON.stringify(n)` for a natural number `n`. -/
def natChars (n : Nat) : List Char :=
  if n = 0 then ['0'] else natCharsAux n

/-- `String(v)` — how a candidate id is coerced for the cooldown key and the
`LIKE` pattern (template literal / `String(candidateId)`). -/
def jsString : JVal → List Char
  | .s v => v
  | .n v => natChars v
  | .null => "null".data

/-- Serialization of one `"key":value` member. -/
def fieldSer : List Char × JVal → List Char
  | (k, .s v) => '"' :: k ++ '"' :: ':' :: '"' :: esc v ++ ['"']
  | (k, .n v) => '"' :: k ++ '"' :: ':' :: natChars v
  | (k, .null) => '"' :: k ++ '"' :: ':' :: "null".data

/-- Comma-separated members. -/
def fieldsSer : List (List Char × JVal) → List Char
  | [] => []
  | [f] => fieldSer f
  | f :: fs => fieldSer f ++ ',' :: fieldsSer fs

/-- `JSON.stringify` of a flat object. -/
def objSer (fs : List (List Char × JVal)) : List Char :=
  '{' :: fieldsSer fs ++ ['}']

/-! ## Scheduler (`src/infra/scheduler.js`, retry/backoff variant)

`SCHED_MAX_ATTEMPTS` (default 3), `SCHED_BACKOFF_MS` (default 15000),
`SCHED_BACKOFF_MULT` (default 2.0) and `SCHED_BACKOFF_JITTER` (default 0.20)
are configuration; there is no cap option.  Float arithmetic is modelled
over `ℚ` and `Math.random() * 2 - 1` is the explicit input `u ∈ [-1, 1)`. -/

/-- Backoff configuration (environment variables of `scheduler.js`). -/
structure SchedCfg where
  maxAttempts : Nat
  backoffBaseMs : ℚ
  backoffMult : ℚ
  backoffJitter : ℚ

/-- The defaults: `SCHED_MAX_ATTEMPTS=3`, `SCHED_BACKOFF_MS=15000`,
`SCHED_BACKOFF_MULT=2.0`, `SCHED_BACKOFF_JITTER=0.20`. -/
def defaultSchedCfg : SchedCfg :=
  { maxAttempts := 3, backoffBaseMs := 15000, backoffMult := 2
    backoffJitter := 1 / 5 }

/-- `Math.round` (round half up, `⌊x + 1/2⌋`). -/
def jsRound (x : ℚ) : ℤ := ⌊x + 1 / 2⌋

/-- `computeBackoffMs(attempt)` with the jitter draw `u` made explicit:
`exp = max(0, attempt-1)`, `base = BASE * MULT^exp`,
`jitter = base * clamp(JITTER,0,1) * u`, result
`max(1000, Math.round(base + jitter))`. -/
def computeBackoffMs (cfg : SchedCfg) (attempt : Nat) (u : ℚ) : ℤ :=
  let e : Nat := attempt - 1
  let base : ℚ := cfg.backoffBaseMs * cfg.backoffMult ^ e
  let jitterFrac : ℚ := max 0 (min 1 cfg.backoffJitter)
  let jitter : ℚ := base * jitterFrac * u
  max 1000 (jsRound (base + jitter))

/-- `clip(str)` — truncate error text to 8000 characters. -/
def clip (e : List Char) : List Char := e.take 8000

/-- Outcome of awaiting the executor promise: it either resolves or rejects
with an error text. -/
inductive ExecOutcome where
  | resolve
  | reject (err : List Char)
deriving DecidableEq, Repr

/-- An executor as `runJob` sees it: it may read and mutate the store
(its handlers call `markJob`/`setKV`) and settles with an outcome. -/
def Executor : Type := Store → Job → Store × ExecOutcome

/-- `runJob(executor, job)` (`src/infra/scheduler.js`, lines 94–135 of the
retry variant): mark `running` with incremented attempts and cleared
`lastError`; await the executor; on resolve mark `done`; on reject either
retry (`pending`, `runAt` advanced by the backoff delay, `lastError`
recorded) when `attemptsNew < MAX_ATTEMPTS`, else mark `failed`. -/
def runJob (cfg : SchedCfg) (exec : Executor) (now : Int) (u : ℚ)
    (s : Store) (j : Job) : Store :=
  let attemptsNew := j.attempts + 1
  let s1 := markJob s j.id
    { status := some .running, attempts := some attemptsNew,
      lastError := some none }
  match exec s1 j with
  | (s2, .resolve) =>
      markJob s2 j.id { status := some .done }
  | (s2, .reject e) =>
      if attemptsNew < cfg.maxAttempts then
        let delay := computeBackoffMs cfg attemptsNew u
        markJob s2 j.id
          { status := some .pending, runAt := some (now + delay),
            lastError := some (some (clip e)), attempts := some attemptsNew }
      else
        markJob s2 j.id
          { status := some .failed, lastError := some (some (clip e)) }

/-! ## Executor (`src/index.js`)

`executor(job)` lower-cases and trims the job type and dispatches on it.
Every recognized branch is wrapped in its own `try`/`catch`: it terminates
by calling `markJob` itself (either `done` with a result or `failed` with
the error detail) and then **returns normally** — the promise rejects only
if something escapes the branches, e.g. `JSON.parse(job.payload)` at the
top.  The external Graph/Zoho/mail calls inside the branches are abstracted
by `BranchEnd`, the `markJob` each branch would reach. -/

/-- How a recognized handler branch ends: every path of
`create`/`deleteuser`/`disableuser` finishes with `markJob(job.id, ...)`
setting either `done` (possibly with a result) or `failed` with an error
message, and then returns. -/
inductive BranchEnd where
  | endDone (result : Option (List Char)) (cooldownCandidate : Option (List Char))
  | endFailed (err : List Char)
deriving DecidableEq, Repr

/-- Outcomes the external world hands each handler branch, plus whether
`JSON.parse(job.payload)` succeeds (its failure is the one error that
escapes the executor and rejects the promise). -/
structure ExecWorld where
  payloadParses : Bool
  payloadParseErr : List Char
  createEnd : BranchEnd
  deleteEnd : BranchEnd
  disableEnd : BranchEnd
deriving Repr

/-- `String(t).trim().toLowerCase()` for the ASCII job-type strings. -/
def normType (t : List Char) : List Char :=
  (((t.dropWhile (·.isWhitespace)).reverse.dropWhile (·.isWhitespace)).reverse).map
    Char.toLower

/-- The KV key `CANDIDATE_COOLDOWN_UNTIL:<cid>`. -/
def cooldownKey (cid : List Char) : List Char :=
  "CANDIDATE_COOLDOWN_UNTIL:".data ++ cid

/-- `PREHIRE_COOLDOWN_MINUTES` cooldown write performed by the create
branch on success: `setKV("CANDIDATE_COOLDOWN_UNTIL:<id>", String(now +
cooldownMin*60*1000))`. -/
def setCooldown (cooldownMin : Nat) (now : Int) (cid : List Char)
    (s : Store) : Store :=
  setKV s (cooldownKey cid)
    (natChars (now + max 0 (cooldownMin : Int) * 60 * 1000).toNat)

/-- Apply a branch ending to the store. -/
def applyBranchEnd (cooldownMin : Nat) (now : Int) (isCreate : Bool)
    (s : Store) (jid : Nat) : BranchEnd → Store
  | .endDone res cand =>
      let s' := if isCreate then
          match cand with
          | some cid => setCooldown cooldownMin now cid s
          | none => s
        else s
      markJob s' jid { status := some .done, result := res }
  | .endFailed err =>
      markJob s jid { status := some .failed, lastError := some (some err) }

/-- `executor(job)` (`src/index.js`): dispatch on the normalized type; the
unknown-type fallthrough marks the job `failed` with
`"Unknown job type: <type>"` and returns normally. -/
def executorModel (cooldownMin : Nat) (now : Int) (w : ExecWorld) :
    Executor := fun s j =>
  if w.payloadParses = false then (s, .reject w.payloadParseErr)
  else
    let ty := normType j.type
    if ty = "create".data ∨ ty = "createfromcandidate".data then
      (applyBranchEnd cooldownMin now true s j.id w.createEnd, .resolve)
    else if ty = "deleteuser".data then
      (applyBranchEnd cooldownMin now false s j.id w.deleteEnd, .resolve)
    else if ty = "disableuser".data then
      (applyBranchEnd cooldownMin now false s j.id w.disableEnd, .resolve)
    else
      (markJob s j.id
        { status := some .failed,
          lastError := some (some ("Unknown job type: ".data ++ j.type)) },
       .resolve)

/-! ## Scheduling policy arithmetic (`Asia/Kolkata`, fixed +05:30) -/

/-- UTC instant (ms) of IST midnight of calendar day `d` (days since the
epoch): `d * 86400000 - 19800000` (5 h 30 min ahead of UTC, no DST). -/
def istDayStartUtcMs (d : Int) : Int := d * 86400000 - 19800000

/-- `joinDt.minus({days}).set({hour, minute, second: 0, millisecond: 0})`
converted to UTC ms: the prehire/offboard target instant for calendar day
`d` at `h:m` IST, `off` days earlier. -/
def istTargetMs (d off h m : Int) : Int :=
  istDayStartUtcMs (d - off) + h * 3600000 + m * 60000

/-- JS `Number(string)` for the stored cooldown values: `""` is `0`, a
digit string is its value, anything else is `NaN` (`none`).  `NaN` is falsy
in the `if (until && ...)` test. -/
def jsNumber (s : List Char) : Option Int :=
  if s = [] then some 0
  else if s.all (·.isDigit) then
    some (s.foldl (fun acc c => acc * 10 + ((c.toNat : Int) - 48)) 0)
  else none

/-- JS string truthiness (non-empty). -/
def strTruthy : Option (List Char) → Bool
  | some v => v ≠ []
  | none => false

/-- JS truthiness of a scalar webhook field. -/
def jvTruthy : Option JVal → Bool
  | some (.s v) => v ≠ []
  | some (.n v) => v ≠ 0
  | some .null => false
  | none => false

/-! ## Prehire route (`POST /api/zoho-candidate/edit`, `src/api/routes.js`) -/

/-- Configuration read by the prehire route: `PREHIRE_EXEC_HOUR` (default
14), `PREHIRE_EXEC_MIN` (default 45), `POSTJOIN_OFFSET_MINUTES` (default 2),
`PREHIRE_OFFSET_DAYS` (default 5), `AZURE_DEFAULT_DOMAIN`. -/
structure PrehireCfg where
  execHour : Int
  execMin : Int
  quickMins : Int
  prehireDays : Int
  domain : Option (List Char)

/-- The inbound webhook fields the route destructures, with the luxon parse
of `joiningdate` (`parseJoinDateIST`) abstracted to its result `joinDay`
(the parsed IST calendar day, `none` when absent or unparseable). -/
structure PrehireReq where
  id : Option JVal
  firstname : Option (List Char)
  lastname : Option (List Char)
  email : Option (List Char)
  employeeId : Option JVal
  joiningdate : Option (List Char)
  employeeType : Option (List Char)
  joinDay : Option Int

/-- Which branch computed `runAt` (the `reason` strings of the route). -/
inductive RunAtReason where
  | prehireOffset
  | prehirePastQuick
  | noJoinQuick
deriving DecidableEq, Repr

/-- The `runAt` computation of the route (lines 118–145): with a parsed
join date, target `(join − prehireDays)` at `execHour:execMin` IST and take
it if strictly after now, else fall back to `now + quickMins`; without a
parsed join date, fall back directly. -/
def computePrehireRunAt (cfg : PrehireCfg) (now : Int) (joinDay : Option Int) :
    Int × RunAtReason :=
  match joinDay with
  | some d =>
      let target := istTargetMs d cfg.prehireDays cfg.execHour cfg.execMin
      if now < target then (target, .prehireOffset)
      else (now + cfg.quickMins * 60000, .prehirePastQuick)
  | none => (now + cfg.quickMins * 60000, .noJoinQuick)

/-- The payload object the route passes to `upsertJob` (keys in insertion
order; `undefined` members dropped by `JSON.stringify`). -/
def prehirePayloadFields (cfg : PrehireCfg) (req : PrehireReq) :
    List (List Char × JVal) :=
  [("candidateId".data, req.id.getD .null),
   ("firstname".data, .s (req.firstname.getD [])),
   ("lastname".data, .s (req.lastname.getD []))]
  ++ (match req.email with
      | some e => [("email".data, JVal.s e)]
      | none => [])
  ++ (match req.employeeId with
      | some v => [("employeeId".data, v)]
      | none => [])
  ++ [("joiningdate".data,
        match req.joiningdate with
        | some jd => if jd = [] then JVal.null else JVal.s jd
        | none => JVal.null),
      ("offsetDays".data, JVal.n cfg.prehireDays.toNat)]
  ++ (match cfg.domain with
      | some d => [("domain".data, JVal.s d)]
      | none => [])
  ++ (match req.employeeType with
      | some t => [("employeeType".data, JVal.s t),
                   ("employementType".data, JVal.s t)]
      | none => [])

/-- Serialized payload stored in the new job row. -/
def prehirePayload (cfg : PrehireCfg) (req : PrehireReq) : List Char :=
  objSer (prehirePayloadFields cfg req)

/-- Responses of the prehire route. -/
inductive PrehireResp where
  | badRequest
  | cooldownActive (candidateId : List Char) (retryAfterMs : Int)
  | alreadyScheduled (jobId : Nat) (runAt : Int)
  | scheduled (jobId : Nat) (runAt : Int) (reason : RunAtReason)
deriving DecidableEq, Repr

/-- The supersede field update of the prehire route
(`markJob(existing.id, \x7b status: 'cancelled', ... \x7d)`). -/
def supersedeFields : MarkFields :=
  { status := some .cancelled,
    lastError := some (some "superseded by new schedule".data) }

/-- The part of the prehire route after the cooldown gate (lines 118–241):
compute `runAt`, dedup/supersede against the active job for the candidate,
then insert the new `createFromCandidate` job. -/
def prehireSchedule (cfg : PrehireCfg) (now : Int) (req : PrehireReq)
    (cid : List Char) (s : Store) : Store × PrehireResp :=
  let runAt := (computePrehireRunAt cfg now req.joinDay).1
  let reason := (computePrehireRunAt cfg now req.joinDay).2
  let inserted := fun (s' : Store) =>
    let r := upsertJob s' "createFromCandidate".data runAt
      (prehirePayload cfg req)
    (r.1, PrehireResp.scheduled r.2 runAt reason)
  match findActiveJobByCandidate s.jobs "createFromCandidate".data cid with
  | some existing =>
      if 60000 < |existing.runAt - runAt| then
        inserted (markJob s existing.id supersedeFields)
      else (s, .alreadyScheduled existing.id existing.runAt)
  | none => inserted s

/-- The `/zoho-candidate/edit` handler (lines 79–249 of
`src/api/routes.js`): validation, cooldown gate, `runAt` computation,
active-job dedup with supersede at a 60 s tolerance, then insert. -/
def prehireHandler (cfg : PrehireCfg) (now : Int) (req : PrehireReq)
    (s : Store) : Store × PrehireResp :=
  if ¬(jvTruthy req.id ∧ strTruthy req.firstname ∧ strTruthy req.lastname) then
    (s, .badRequest)
  else
    let cid := jsString (req.id.getD .null)
    let untilVal : Option Int :=
      match getKV s (cooldownKey cid) with
      | some v => jsNumber v
      | none => some 0
    match untilVal with
    | some t =>
      if t ≠ 0 ∧ now < t then (s, .cooldownActive cid (t - now))
      else prehireSchedule cfg now req cid s
    | none => prehireSchedule cfg now req cid s

/-! ## Offboarding route (`POST /api/zoho-webhook/delete`,
`src/api/routes.js`) -/

/-- Configuration of the offboarding route: `OFFBOARD_EXEC_HOUR` (default
14) and `OFFBOARD_EXEC_MIN` (default 20). -/
structure OffboardCfg where
  execHour : Int
  execMin : Int

/-- The inbound fields after the `pick(...)` alias resolution, with the
luxon parse of the exit date abstracted to its result `exitDay`. -/
structure OffboardReq where
  employeeId : Option (List Char)
  email : Option (List Char)
  upn : Option (List Char)
  exitDay : Option Int

/-- Outcome of the synchronous lookup/disable sequence of the immediate
branch (the Graph calls are external). -/
inductive ImmediateOutcome where
  | userNotFound
  | empIdMismatch
  | disableError (err : List Char)
  | ok (userId : List Char)
deriving DecidableEq, Repr

/-- Externally visible directory mutations performed synchronously by the
immediate branch. -/
inductive OffEffect where
  | sessionsRevoked (userId : List Char)
  | accountDisabled (userId : List Char)
  | cleanupAttempted (userId : List Char)
deriving DecidableEq, Repr

/-- Responses of the offboarding route. -/
inductive OffboardResp where
  | badRequest
  | notFound
  | mismatch
  | disableFailed (err : List Char)
  | deletedNow (userId : List Char)
  | scheduled (runAt : Int)
deriving DecidableEq, Repr

/-- The immediate (`delete now`) branch of `/zoho-webhook/delete`: resolve
the user strictly by `employeeId` (email/UPN fallbacks verified against
it), revoke sessions, disable the account and run the best-effort cleanup;
in every case no job row is written. -/
def immediateBranch (world : ImmediateOutcome) (s : Store) :
    Store × OffboardResp × List OffEffect :=
  match world with
  | .userNotFound => (s, .notFound, [])
  | .empIdMismatch => (s, .mismatch, [])
  | .disableError err => (s, .disableFailed err, [])
  | .ok uid =>
      (s, .deletedNow uid,
       [.sessionsRevoked uid, .accountDisabled uid, .cleanupAttempted uid])

/-- The serialized `disableUser` payload
(`\x7b employeeId, email: email || null, upn: upn || null \x7d`). -/
def offboardPayload (req : OffboardReq) : List Char :=
  objSer
    [("employeeId".data, .s (req.employeeId.getD [])),
     ("email".data, match req.email with
                    | some e => JVal.s e
                    | none => JVal.null),
     ("upn".data, match req.upn with
                  | some u => JVal.s u
                  | none => JVal.null)]

/-- The `/zoho-webhook/delete` handler (lines 434–622 of
`src/api/routes.js`): require `employeeId`; compute the trigger instant
(exit date at `OFFBOARD_EXEC_HOUR:OFFBOARD_EXEC_MIN` IST); if it is absent
or not strictly in the future, perform the disable synchronously (immediate
mode, no job row); otherwise insert a `disableUser` job for that instant. -/
def offboardHandler (cfg : OffboardCfg) (now : Int) (world : ImmediateOutcome)
    (req : OffboardReq) (s : Store) : Store × OffboardResp × List OffEffect :=
  if ¬ strTruthy req.employeeId then (s, .badRequest, [])
  else
    let futureCandidate : Option Int :=
      req.exitDay.map fun d => istTargetMs d 0 cfg.execHour cfg.execMin
    match futureCandidate with
    | some t =>
        if t ≤ now then immediateBranch world s
        else
          let r := upsertJob s "disableUser".data t (offboardPayload req)
          (r.1, .scheduled t, [])
    | none => immediateBranch world s

/-! ## Helper lemmas -/

theorem foldl_pickLatest_eq (l : List Job) (acc : Option Job) (e : Job)
    (h : l.foldl pickLatest acc = some e) : acc = some e ∨ e ∈ l := by
  induction l generalizing acc with
  | nil => exact Or.inl h
  | cons j l ih =>
    rcases ih (pickLatest acc j) h with h' | h'
    · cases acc with
      | none =>
        simp only [pickLatest, Option.some.injEq] at h'
        exact Or.inr (by simp [← h'])
      | some k =>
        by_cases hk : k.runAt < j.runAt
        · simp only [pickLatest, if_pos hk, Option.some.injEq] at h'
          exact Or.inr (by simp [← h'])
        · simp only [pickLatest, if_neg hk] at h'
          exact Or.inl h'
    · exact Or.inr (List.mem_cons_of_mem _ h')

theorem findActive_spec (jobs : List Job) (ty cid : List Char) (e : Job)
    (h : findActiveJobByCandidate jobs ty cid = some e) :
    e ∈ jobs ∧ e.type = ty ∧ isActive e.status = true ∧
      occursIn (candPattern cid) e.payload = true := by
  unfold findActiveJobByCandidate at h
  rcases foldl_pickLatest_eq _ _ _ h with h' | h'
  · simp at h'
  · have hm := List.mem_filter.mp h'
    obtain ⟨hmem, hpred⟩ := hm
    simp only [Bool.and_eq_true, decide_eq_true_eq] at hpred
    exact ⟨hmem, hpred.1.1, hpred.1.2, hpred.2⟩

/-- An active (`pending`/`running`) job is not `cancelled`. -/
theorem isActive_not_cancelled {st : JobStatus} (h : isActive st = true) :
    st ≠ .cancelled := by
  cases st <;> simp_all [isActive]

/-- Number of `cancelled` rows. -/
def countCancelled (jobs : List Job) : Nat :=
  (jobs.filter fun j => j.status = .cancelled).length

theorem applyMark_supersede_status (j : Job) :
    (applyMark supersedeFields j).status = .cancelled := rfl

/-- Marking exactly the row of an active job `e` as cancelled (unique ids)
increases the number of cancelled rows by exactly one. -/
theorem count_cancel_map (jobs : List Job) (e : Job) (he : e ∈ jobs)
    (hnd : (jobs.map Job.id).Nodup) (hact : isActive e.status = true) :
    countCancelled (jobs.map fun j =>
        if j.id = e.id then applyMark supersedeFields j else j)
      = countCancelled jobs + 1 := by
  induction jobs with
  | nil => cases he
  | cons j rest ih =>
    simp only [List.map_cons, List.nodup_cons, List.mem_map] at hnd
    obtain ⟨hjid, hndrest⟩ := hnd
    rcases List.mem_cons.mp he with rfl | he'
    · -- head row is the marked one
      have hmapRest : (rest.map fun k =>
          if k.id = e.id then applyMark supersedeFields k else k) = rest := by
        have h1 : (rest.map fun k =>
            if k.id = e.id then applyMark supersedeFields k else k)
            = rest.map id := by
          apply List.map_congr_left
          intro k hk
          have : k.id ≠ e.id := fun hid => hjid ⟨k, hk, hid⟩
          simp [this]
        rw [h1, List.map_id]
      simp only [List.map_cons, if_pos rfl, hmapRest]
      unfold countCancelled
      have hnc : e.status ≠ JobStatus.cancelled := isActive_not_cancelled hact
      simp [List.filter_cons, applyMark_supersede_status, hnc]
    · -- head row unchanged
      have hjot : j.id ≠ e.id := by
        intro hid
        exact hjid ⟨e, he', (hid.symm : e.id = j.id)⟩
      have ihr := ih he' hndrest
      simp only [List.map_cons, if_neg hjot]
      unfold countCancelled at ihr ⊢
      by_cases hjc : j.status = JobStatus.cancelled <;>
        simp [List.filter_cons, hjc, ihr]

/-- "No unexpired cooldown marker": whatever the stored
`CANDIDATE_COOLDOWN_UNTIL:<cid>` value parses to is zero or not after
`now`. -/
def cooldownClear (s : Store) (cid : List Char) (now : Int) : Prop :=
  ∀ v t, getKV s (cooldownKey cid) = some v →
    jsNumber v = some t → t = 0 ∨ t ≤ now

/-- With valid identifiers and no active cooldown, the prehire handler runs
its scheduling part. -/
theorem prehireHandler_clear (cfg : PrehireCfg) (now : Int) (req : PrehireReq)
    (s : Store)
    (hid : jvTruthy req.id = true) (hfn : strTruthy req.firstname = true)
    (hln : strTruthy req.lastname = true)
    (hcc : cooldownClear s (jsString (req.id.getD .null)) now) :
    prehireHandler cfg now req s =
      prehireSchedule cfg now req (jsString (req.id.getD .null)) s := by
  unfold prehireHandler
  rw [if_neg (by simp [hid, hfn, hln])]
  cases hk : getKV s (cooldownKey (jsString (req.id.getD .null))) with
  | none => simp [hk]
  | some v =>
    cases hn : jsNumber v with
    | none => simp [hk, hn]
    | some t =>
      have hcl := hcc v t hk hn
      have hnc : ¬(t ≠ 0 ∧ now < t) := by omega
      simp [hk, hn, hnc]

/-- C3: a well-formed prehire trigger for candidate `c` arriving while the
stored `CANDIDATE_COOLDOWN_UNTIL:c` marker holds an instant strictly later
than `now` is answered with `cooldown_active` carrying the remaining
duration, and the store — in particular the `jobs` table — is unchanged
(no new job row). -/
theorem cooldown_active_suppresses_scheduling (cfg : PrehireCfg) (now : Int)
    (req : PrehireReq) (s : Store) (v : List Char) (t : Int)
    (hid : jvTruthy req.id = true) (hfn : strTruthy req.firstname = true)
    (hln : strTruthy req.lastname = true)
    (hkv : getKV s (cooldownKey (jsString (req.id.getD .null))) = some v)
    (hnum : jsNumber v = some t)
    (hnow : 0 ≤ now) (hlt : now < t) :
    prehireHandler cfg now req s =
      (s, .cooldownActive (jsString (req.id.getD .null)) (t - now)) := by
  unfold prehireHandler
  rw [if_neg (by simp [hid, hfn, hln])]
  have ht0 : t ≠ 0 := by omega
  simp [hkv, hnum, ht0, hlt]

/-- Prehire route configuration fixture. -/
def wCfgP : PrehireCfg :=
  { execHour := 14, execMin := 45, quickMins := 2, prehireDays := 5,
    domain := some "example.com".data }

/-- A well-formed prehire request for candidate `c1`. -/
def wReqCooldown : PrehireReq :=
  { id := some (.s "c1".data), firstname := some "Jo".data,
    lastname := some "Doe".data, email := none, employeeId := none,
    joiningdate := none, employeeType := none, joinDay := none }

/-- A store holding an unexpired cooldown marker for `c1`. -/
def wStoreCooldown : Store :=
  { jobs := [],
    kv := [("CANDIDATE_COOLDOWN_UNTIL:c1".data, "2000".data)],
    nextId := 1 }

theorem cooldown_active_suppresses_scheduling_witness :
    prehireHandler wCfgP 1000 wReqCooldown wStoreCooldown =
      (wStoreCooldown, .cooldownActive "c1".data 1000) :=
  cooldown_active_suppresses_scheduling wCfgP 1000 wReqCooldown wStoreCooldown
    "2000".data 2000 (by decide) (by decide) (by decide) (by decide)
    (by decide) (by decide) (by decide)

/-- The fresh pending row inserted by the prehire route. -/
def prehireNewJob (cfg : PrehireCfg) (now : Int) (req : PrehireReq)
    (s : Store) : Job :=
  { id := s.nextId, type := "createFromCandidate".data,
    runAt := (computePrehireRunAt cfg now req.joinDay).1, status := .pending,
    attempts := 0, payload := prehirePayload cfg req, lastError := none,
    result := none }

/-- C2: for a well-formed prehire request outside any cooldown, when the
active-job lookup for (`createFromCandidate`, candidate id) returns a job
`e`: if `e.runAt` is within the 60 s tolerance of the newly computed
`runAt`, the request answers `already_scheduled` with `e`'s identity and
the store is unchanged (no insert, nothing cancelled); if it differs by
more than the tolerance, exactly that one job is marked `cancelled`
(cancelled-row count goes up by exactly one, ids assumed unique) and
exactly one new pending row is inserted. -/
theorem prehire_dedup_and_supersede (cfg : PrehireCfg) (now : Int)
    (req : PrehireReq) (s : Store) (e : Job)
    (hid : jvTruthy req.id = true) (hfn : strTruthy req.firstname = true)
    (hln : strTruthy req.lastname = true)
    (hcc : cooldownClear s (jsString (req.id.getD .null)) now)
    (hfind : findActiveJobByCandidate s.jobs "createFromCandidate".data
        (jsString (req.id.getD .null)) = some e)
    (hnd : (s.jobs.map Job.id).Nodup) :
    (|e.runAt - (computePrehireRunAt cfg now req.joinDay).1| ≤ 60000 →
      prehireHandler cfg now req s = (s, .alreadyScheduled e.id e.runAt)) ∧
    (60000 < |e.runAt - (computePrehireRunAt cfg now req.joinDay).1| →
      (prehireHandler cfg now req s).1.jobs =
          (s.jobs.map fun j =>
            if j.id = e.id then applyMark supersedeFields j else j)
          ++ [prehireNewJob cfg now req s] ∧
      (prehireHandler cfg now req s).2 =
        .scheduled s.nextId (computePrehireRunAt cfg now req.joinDay).1
          (computePrehireRunAt cfg now req.joinDay).2 ∧
      countCancelled (prehireHandler cfg now req s).1.jobs =
        countCancelled s.jobs + 1 ∧
      (prehireHandler cfg now req s).1.jobs.length = s.jobs.length + 1) := by
  have hred := prehireHandler_clear cfg now req s hid hfn hln hcc
  obtain ⟨hmem, -, hact, -⟩ := findActive_spec _ _ _ _ hfind
  constructor
  · intro htol
    rw [hred]
    unfold prehireSchedule
    rw [hfind]
    dsimp only
    rw [if_neg (not_lt.mpr htol)]
  · intro htol
    rw [hred]
    unfold prehireSchedule
    rw [hfind]
    dsimp only
    rw [if_pos htol]
    refine ⟨rfl, rfl, ?_, ?_⟩
    · show countCancelled
          ((s.jobs.map fun j =>
              if j.id = e.id then applyMark supersedeFields j else j)
            ++ [prehireNewJob cfg now req s]) = countCancelled s.jobs + 1
      unfold countCancelled
      rw [List.filter_append, List.length_append]
      have hnew : (List.filter (fun j => decide (j.status = JobStatus.cancelled))
          [prehireNewJob cfg now req s]) = [] := by
        simp [prehireNewJob]
      rw [hnew]
      have := count_cancel_map s.jobs e hmem hnd hact
      unfold countCancelled at this
      simpa using this
    · show ((s.jobs.map fun j =>
            if j.id = e.id then applyMark supersedeFields j else j)
          ++ [prehireNewJob cfg now req s]).length = s.jobs.length + 1
      simp

/-- An active `createFromCandidate` job for candidate `77`. -/
def wJobActive : Job :=
  { id := 7, type := "createFromCandidate".data, runAt := 500000,
    status := .pending, attempts := 0,
    payload := objSer [("candidateId".data, .s "77".data)],
    lastError := none, result := none }

/-- Store holding the active job. -/
def wStoreActive : Store := { jobs := [wJobActive], kv := [], nextId := 8 }

/-- A prehire request for candidate `77` without a parseable join date. -/
def wReqDedup : PrehireReq :=
  { id := some (.s "77".data), firstname := some "Jo".data,
    lastname := some "Doe".data, email := none, employeeId := none,
    joiningdate := none, employeeType := none, joinDay := none }

theorem prehire_dedup_and_supersede_witness :
    prehireHandler wCfgP 400000 wReqDedup wStoreActive
      = (wStoreActive, .alreadyScheduled 7 500000) :=
  (prehire_dedup_and_supersede wCfgP 400000 wReqDedup wStoreActive wJobActive
      (by decide) (by decide) (by decide)
      (by intro v t h; exact Option.noConfusion h)
      (by decide) (by decide)).1 (by decide)

/-- C5: the prehire `runAt` policy.  With a parsed join date `d`, the target
is `(d − prehireDays)` at `execHour:execMin` IST and is used exactly when it
is strictly after `now`, otherwise `now + quickMins` minutes; with no
parseable join date, `now + quickMins` directly.  Whenever the route answers
`scheduled`, the answered and persisted `runAt` is exactly this value. -/
theorem prehire_runat_policy (cfg : PrehireCfg) (now : Int) (req : PrehireReq)
    (s : Store)
    (hid : jvTruthy req.id = true) (hfn : strTruthy req.firstname = true)
    (hln : strTruthy req.lastname = true)
    (hcc : cooldownClear s (jsString (req.id.getD .null)) now) :
    (∀ d, computePrehireRunAt cfg now (some d) =
      if now < istTargetMs d cfg.prehireDays cfg.execHour cfg.execMin then
        (istTargetMs d cfg.prehireDays cfg.execHour cfg.execMin,
         RunAtReason.prehireOffset)
      else (now + cfg.quickMins * 60000, RunAtReason.prehirePastQuick)) ∧
    computePrehireRunAt cfg now none
      = (now + cfg.quickMins * 60000, RunAtReason.noJoinQuick) ∧
    (∀ jid r rsn, (prehireHandler cfg now req s).2 = .scheduled jid r rsn →
      r = (computePrehireRunAt cfg now req.joinDay).1 ∧
      ∃ j, j ∈ (prehireHandler cfg now req s).1.jobs ∧ j.id = jid ∧
        j.runAt = r ∧ j.status = .pending ∧
        j.type = "createFromCandidate".data) := by
  refine ⟨fun d => rfl, rfl, fun jid r rsn h => ?_⟩
  have hred := prehireHandler_clear cfg now req s hid hfn hln hcc
  cases hfind : findActiveJobByCandidate s.jobs "createFromCandidate".data
      (jsString (req.id.getD .null)) with
  | none =>
    have hval : prehireHandler cfg now req s
        = ((upsertJob s "createFromCandidate".data
              (computePrehireRunAt cfg now req.joinDay).1
              (prehirePayload cfg req)).1,
           .scheduled s.nextId (computePrehireRunAt cfg now req.joinDay).1
             (computePrehireRunAt cfg now req.joinDay).2) := by
      rw [hred]
      unfold prehireSchedule
      rw [hfind]
      rfl
    rw [hval] at h ⊢
    dsimp only at h ⊢
    injection h with h1 h2 h3
    subst h1
    subst h2
    refine ⟨rfl, prehireNewJob cfg now req s, ?_, rfl, rfl, rfl, rfl⟩
    simp [upsertJob, prehireNewJob]
  | some e =>
    by_cases htol :
        60000 < |e.runAt - (computePrehireRunAt cfg now req.joinDay).1|
    · have hval : prehireHandler cfg now req s
          = ((upsertJob (markJob s e.id supersedeFields)
                "createFromCandidate".data
                (computePrehireRunAt cfg now req.joinDay).1
                (prehirePayload cfg req)).1,
             .scheduled s.nextId (computePrehireRunAt cfg now req.joinDay).1
               (computePrehireRunAt cfg now req.joinDay).2) := by
        rw [hred]
        unfold prehireSchedule
        rw [hfind]
        dsimp only
        rw [if_pos htol]
        rfl
      rw [hval] at h ⊢
      dsimp only at h ⊢
      injection h with h1 h2 h3
      subst h1
      subst h2
      refine ⟨rfl, prehireNewJob cfg now req s, ?_, rfl, rfl, rfl, rfl⟩
      simp [upsertJob, markJob, prehireNewJob]
    · have hval : prehireHandler cfg now req s
          = (s, .alreadyScheduled e.id e.runAt) := by
        rw [hred]
        unfold prehireSchedule
        rw [hfind]
        dsimp only
        rw [if_neg htol]
      rw [hval] at h
      exact absurd h (by simp)

/-- A prehire request for candidate `88` whose join date parsed to IST
calendar day 20000 (2024-10-04). -/
def wReqPolicy : PrehireReq :=
  { id := some (.s "88".data), firstname := some "Jo".data,
    lastname := some "Doe".data, email := none, employeeId := none,
    joiningdate := some "04-10-2024".data, employeeType := none,
    joinDay := some 20000 }

/-- An empty store. -/
def wStoreEmpty : Store := { jobs := [], kv := [], nextId := 1 }

theorem prehire_runat_policy_witness :
    (∀ d, computePrehireRunAt wCfgP 400000 (some d) =
      if (400000 : Int) < istTargetMs d wCfgP.prehireDays wCfgP.execHour
          wCfgP.execMin then
        (istTargetMs d wCfgP.prehireDays wCfgP.execHour wCfgP.execMin,
         RunAtReason.prehireOffset)
      else ((400000 : Int) + wCfgP.quickMins * 60000,
            RunAtReason.prehirePastQuick)) ∧
    computePrehireRunAt wCfgP 400000 none
      = ((400000 : Int) + wCfgP.quickMins * 60000, RunAtReason.noJoinQuick) ∧
    (∀ jid r rsn,
      (prehireHandler wCfgP 400000 wReqPolicy wStoreEmpty).2
          = .scheduled jid r rsn →
      r = (computePrehireRunAt wCfgP 400000 wReqPolicy.joinDay).1 ∧
      ∃ j, j ∈ (prehireHandler wCfgP 400000 wReqPolicy wStoreEmpty).1.jobs ∧
        j.id = jid ∧ j.runAt = r ∧ j.status = .pending ∧
        j.type = "createFromCandidate".data) :=
  prehire_runat_policy wCfgP 400000 wReqPolicy wStoreEmpty
    (by decide) (by decide) (by decide)
    (by intro v t h; exact Option.noConfusion h)

/-- The `disableUser` row inserted by the scheduled branch of the
offboarding route. -/
def offboardNewJob (cfg : OffboardCfg) (req : OffboardReq) (s : Store)
    (d : Int) : Job :=
  { id := s.nextId, type := "disableUser".data,
    runAt := istTargetMs d 0 cfg.execHour cfg.execMin, status := .pending,
    attempts := 0, payload := offboardPayload req, lastError := none,
    result := none }

theorem immediateBranch_fst (world : ImmediateOutcome) (s : Store) :
    (immediateBranch world s).1 = s := by
  cases world <;> rfl

/-- C6: for an offboarding trigger with an `employeeId`: when the computed
trigger instant (exit date at the configured hour:minute IST) is absent or
at-or-before `now`, the store is untouched (no job row) and, when the
synchronous lookup/disable succeeds, the disable is performed in the
response path itself; only when the instant is strictly in the future is a
job persisted, with exactly that instant as `runAt` and no synchronous
directory effect. -/
theorem offboard_immediate_vs_scheduled (cfg : OffboardCfg) (now : Int)
    (world : ImmediateOutcome) (req : OffboardReq) (s : Store)
    (heid : strTruthy req.employeeId = true) :
    ((req.exitDay = none ∨ (∃ d, req.exitDay = some d ∧
        istTargetMs d 0 cfg.execHour cfg.execMin ≤ now)) →
      (offboardHandler cfg now world req s).1 = s ∧
      (∀ uid, world = .ok uid →
        (offboardHandler cfg now world req s).2.1 = .deletedNow uid ∧
        .accountDisabled uid ∈ (offboardHandler cfg now world req s).2.2)) ∧
    (∀ d, req.exitDay = some d →
      now < istTargetMs d 0 cfg.execHour cfg.execMin →
      (offboardHandler cfg now world req s).1.jobs
          = s.jobs ++ [offboardNewJob cfg req s d] ∧
      (offboardHandler cfg now world req s).2.1
          = .scheduled (istTargetMs d 0 cfg.execHour cfg.execMin) ∧
      (offboardHandler cfg now world req s).2.2 = []) := by
  constructor
  · rintro (hnone | ⟨d, hd, hpast⟩)
    · have hval : offboardHandler cfg now world req s = immediateBranch world s := by
        unfold offboardHandler
        rw [if_neg (by simp [heid]), hnone]
        rfl
      rw [hval]
      refine ⟨immediateBranch_fst world s, fun uid huid => ?_⟩
      subst huid
      exact ⟨rfl, by simp [immediateBranch]⟩
    · have hval : offboardHandler cfg now world req s = immediateBranch world s := by
        unfold offboardHandler
        rw [if_neg (by simp [heid]), hd]
        dsimp only [Option.map]
        rw [if_pos hpast]
      rw [hval]
      refine ⟨immediateBranch_fst world s, fun uid huid => ?_⟩
      subst huid
      exact ⟨rfl, by simp [immediateBranch]⟩
  · intro d hd hfut
    have hval : offboardHandler cfg now world req s
        = ((upsertJob s "disableUser".data
              (istTargetMs d 0 cfg.execHour cfg.execMin)
              (offboardPayload req)).1,
           .scheduled (istTargetMs d 0 cfg.execHour cfg.execMin), []) := by
      unfold offboardHandler
      rw [if_neg (by simp [heid]), hd]
      dsimp only [Option.map]
      rw [if_neg (not_le.mpr hfut)]
    rw [hval]
    exact ⟨by simp [upsertJob, offboardNewJob], rfl, rfl⟩

/-- Offboarding configuration fixture (`14:20` IST). -/
def wCfgO : OffboardCfg := { execHour := 14, execMin := 20 }

/-- Offboarding request with exit day 1 (1970-01-02 IST). -/
def wReqOff : OffboardReq :=
  { employeeId := some "E1".data, email := none, upn := none,
    exitDay := some 1 }

theorem offboard_immediate_vs_scheduled_witness :
    (((wReqOff.exitDay = none ∨ (∃ d, wReqOff.exitDay = some d ∧
        istTargetMs d 0 wCfgO.execHour wCfgO.execMin ≤ 0)) →
      (offboardHandler wCfgO 0 (.ok "u9".data) wReqOff wStoreEmpty).1
          = wStoreEmpty ∧
      (∀ uid, ImmediateOutcome.ok "u9".data = .ok uid →
        (offboardHandler wCfgO 0 (.ok "u9".data) wReqOff wStoreEmpty).2.1
            = .deletedNow uid ∧
        OffEffect.accountDisabled uid ∈
          (offboardHandler wCfgO 0 (.ok "u9".data) wReqOff wStoreEmpty).2.2)) ∧
    (∀ d, wReqOff.exitDay = some d →
      (0 : Int) < istTargetMs d 0 wCfgO.execHour wCfgO.execMin →
      (offboardHandler wCfgO 0 (.ok "u9".data) wReqOff wStoreEmpty).1.jobs
          = wStoreEmpty.jobs ++ [offboardNewJob wCfgO wReqOff wStoreEmpty d] ∧
      (offboardHandler wCfgO 0 (.ok "u9".data) wReqOff wStoreEmpty).2.1
          = .scheduled (istTargetMs d 0 wCfgO.execHour wCfgO.execMin) ∧
      (offboardHandler wCfgO 0 (.ok "u9".data) wReqOff wStoreEmpty).2.2 = [])) :=
  offboard_immediate_vs_scheduled wCfgO 0 (.ok "u9".data) wReqOff wStoreEmpty
    (by decide)

/-- C10: the scheduled branch of the offboarding route inserts
unconditionally — no active-job dedup, supersede or cooldown check — so
two future-dated triggers for the same `employeeId` against any starting
store (even one already holding an active `disableUser` job for it) each
append their own pending `disableUser` row, and no pre-existing row is
modified. -/
theorem offboard_scheduled_no_dedup (cfg : OffboardCfg) (now₁ now₂ : Int)
    (world₁ world₂ : ImmediateOutcome) (req : OffboardReq) (s : Store)
    (d : Int) (heid : strTruthy req.employeeId = true)
    (hd : req.exitDay = some d)
    (hfut₁ : now₁ < istTargetMs d 0 cfg.execHour cfg.execMin)
    (hfut₂ : now₂ < istTargetMs d 0 cfg.execHour cfg.execMin) :
    (offboardHandler cfg now₁ world₁ req s).1.jobs
        = s.jobs ++ [offboardNewJob cfg req s d] ∧
    (offboardHandler cfg now₂ world₂ req
        (offboardHandler cfg now₁ world₁ req s).1).1.jobs
        = s.jobs ++ [offboardNewJob cfg req s d,
            { offboardNewJob cfg req s d with id := s.nextId + 1 }] ∧
    (offboardNewJob cfg req s d).status = .pending ∧
    (offboardNewJob cfg req s d).type = "disableUser".data := by
  have step : ∀ (now : Int) (world : ImmediateOutcome) (s' : Store),
      now < istTargetMs d 0 cfg.execHour cfg.execMin →
      (offboardHandler cfg now world req s').1
        = { s' with
            jobs := s'.jobs ++ [offboardNewJob cfg req s' d],
            nextId := s'.nextId + 1 } := by
    intro now world s' hfut
    unfold offboardHandler
    rw [if_neg (by simp [heid]), hd]
    dsimp only [Option.map]
    rw [if_neg (not_le.mpr hfut)]
    rfl
  rw [step now₁ world₁ s hfut₁]
  rw [step now₂ world₂ _ hfut₂]
  refine ⟨rfl, ?_, rfl, rfl⟩
  simp [offboardNewJob, List.append_assoc]

theorem offboard_scheduled_no_dedup_witness :
    (offboardHandler wCfgO 0 .userNotFound wReqOff wStoreActive).1.jobs
        = wStoreActive.jobs ++ [offboardNewJob wCfgO wReqOff wStoreActive 1] ∧
    (offboardHandler wCfgO 5 .userNotFound wReqOff
        (offboardHandler wCfgO 0 .userNotFound wReqOff wStoreActive).1).1.jobs
        = wStoreActive.jobs ++ [offboardNewJob wCfgO wReqOff wStoreActive 1,
            { offboardNewJob wCfgO wReqOff wStoreActive 1 with
                id := wStoreActive.nextId + 1 }] ∧
    (offboardNewJob wCfgO wReqOff wStoreActive 1).status = .pending ∧
    (offboardNewJob wCfgO wReqOff wStoreActive 1).type = "disableUser".data :=
  offboard_scheduled_no_dedup wCfgO 0 5 .userNotFound .userNotFound wReqOff
    wStoreActive 1 (by decide) (by decide) (by decide) (by decide)

/-- A row that is not `pending` is never returned by `fetchDueJobs`. -/
theorem not_pending_not_due (s : Store) (now : Int) (k : Job)
    (hk : k.status ≠ .pending) : k ∉ fetchDueJobs s now := by
  intro hmem
  unfold fetchDueJobs at hmem
  have h1 := List.take_subset 20 _ hmem
  rw [List.mem_mergeSort] at h1
  have h2 := (List.mem_filter.mp h1).2
  simp only [decide_eq_true_eq] at h2
  exact hk h2.1

/-- Rows of `markJob s id f` carrying the id are `applyMark f` images of
rows of `s`. -/
theorem mem_markJob_id (s : Store) (id : Nat) (f : MarkFields) (k : Job)
    (hmem : k ∈ (markJob s id f).jobs) (hid : k.id = id) :
    ∃ x ∈ s.jobs, k = applyMark f x := by
  unfold markJob at hmem
  obtain ⟨x, hx, hxk⟩ := List.mem_map.mp hmem
  by_cases hxid : x.id = id
  · rw [if_pos hxid] at hxk
    exact ⟨x, hx, hxk.symm⟩
  · rw [if_neg hxid] at hxk
    exact absurd (hxk ▸ hid) hxid

/-- The backoff delay is at least the hardcoded 1000 ms floor. -/
theorem computeBackoffMs_ge_1000 (cfg : SchedCfg) (n : Nat) (u : ℚ) :
    1000 ≤ computeBackoffMs cfg n u :=
  le_max_left _ _

/-- C7: when the dispatched handler promise rejects with error `err`, the
job returns to `pending` with `runAt` advanced strictly into the future by
the backoff delay and `lastError` recorded — provided the incremented
attempt count is still below `maxAttempts`; once it has reached
`maxAttempts`, the job is marked `failed` with `lastError` recorded, and a
failed row is never fetched as due again (terminal). -/
theorem handler_error_retries_then_fails (cfg : SchedCfg) (exec : Executor)
    (now : Int) (u : ℚ) (s : Store) (j : Job) (s₂ : Store) (err : List Char)
    (hexec : exec (markJob s j.id
        { status := some .running, attempts := some (j.attempts + 1),
          lastError := some none }) j = (s₂, .reject err)) :
    (j.attempts + 1 < cfg.maxAttempts →
      ∀ k ∈ (runJob cfg exec now u s j).jobs, k.id = j.id →
        k.status = .pending ∧
        k.runAt = now + computeBackoffMs cfg (j.attempts + 1) u ∧
        now < k.runAt ∧
        k.lastError = some (clip err) ∧
        k.attempts = j.attempts + 1) ∧
    (cfg.maxAttempts ≤ j.attempts + 1 →
      ∀ k ∈ (runJob cfg exec now u s j).jobs, k.id = j.id →
        k.status = .failed ∧
        k.lastError = some (clip err) ∧
        ∀ now', k ∉ fetchDueJobs (runJob cfg exec now u s j) now') := by
  have hrun : runJob cfg exec now u s j =
      (if j.attempts + 1 < cfg.maxAttempts then
        markJob s₂ j.id
          { status := some .pending,
            runAt := some (now + computeBackoffMs cfg (j.attempts + 1) u),
            lastError := some (some (clip err)),
            attempts := some (j.attempts + 1) }
      else
        markJob s₂ j.id
          { status := some .failed, lastError := some (some (clip err)) }) := by
    unfold runJob
    dsimp only
    rw [hexec]
  constructor
  · intro hlt k hmem hid
    rw [hrun, if_pos hlt] at hmem
    obtain ⟨x, -, hk⟩ := mem_markJob_id _ _ _ _ hmem hid
    subst hk
    have hdelay := computeBackoffMs_ge_1000 cfg (j.attempts + 1) u
    refine ⟨rfl, rfl, by simp [applyMark]; omega, rfl, rfl⟩
  · intro hge k hmem hid
    rw [hrun, if_neg (by omega)] at hmem
    obtain ⟨x, -, hk⟩ := mem_markJob_id _ _ _ _ hmem hid
    subst hk
    exact ⟨rfl, rfl, fun now' => not_pending_not_due _ _ _ (by simp [applyMark])⟩

/-- A `deleteUser` job with two prior attempts. -/
def wJobRetry : Job :=
  { id := 5, type := "deleteUser".data, runAt := 0, status := .pending,
    attempts := 0, payload := "{}".data, lastError := none, result := none }

/-- Store holding it. -/
def wStoreRetry : Store := { jobs := [wJobRetry], kv := [], nextId := 6 }

/-- An executor that rejects with `boom`. -/
def wExecReject : Executor := fun s _ => (s, .reject "boom".data)

/-- The row the retry leaves behind: pending again, one attempt recorded,
`runAt` pushed to `100 + 15000` (zero jitter), error recorded. -/
def wJobRetried : Job :=
  { id := 5, type := "deleteUser".data, runAt := 15100, status := .pending,
    attempts := 1, payload := "{}".data, lastError := some "boom".data,
    result := none }

theorem computeBackoff_default_first : computeBackoffMs defaultSchedCfg 1 0 = 15000 := by
  unfold computeBackoffMs defaultSchedCfg jsRound
  norm_num

theorem handler_error_retries_then_fails_witness :
    wJobRetried.status = .pending ∧
    wJobRetried.runAt
      = 100 + computeBackoffMs defaultSchedCfg (wJobRetry.attempts + 1) 0 ∧
    (100 : Int) < wJobRetried.runAt ∧
    wJobRetried.lastError = some (clip "boom".data) ∧
    wJobRetried.attempts = wJobRetry.attempts + 1 :=
  (handler_error_retries_then_fails defaultSchedCfg wExecReject 100 0
      wStoreRetry wJobRetry _ "boom".data rfl).1 (by decide)
    wJobRetried
    (by
      have hjobs :
          (runJob defaultSchedCfg wExecReject 100 0 wStoreRetry wJobRetry).jobs
            = [wJobRetried] := by
        unfold runJob wExecReject
        dsimp only
        rw [if_pos
          (by decide : wJobRetry.attempts + 1 < defaultSchedCfg.maxAttempts)]
        rw [show computeBackoffMs defaultSchedCfg (wJobRetry.attempts + 1) 0
            = 15000 from computeBackoff_default_first]
        decide
      rw [hjobs]
      exact List.mem_singleton_self _)
    (by decide)

/-- `Math.round` of an integer value is that integer. -/
theorem jsRound_intCast (m : ℤ) : jsRound (m : ℚ) = m := by
  unfold jsRound
  rw [Int.floor_eq_iff]
  constructor
  · norm_num
  · norm_num

/-- `Math.round x ≤ x + 1/2`. -/
theorem jsRound_le (x : ℚ) : (jsRound x : ℚ) ≤ x + 1 / 2 :=
  Int.floor_le _

/-- `Math.round` is monotone. -/
theorem jsRound_mono {x y : ℚ} (h : x ≤ y) : jsRound x ≤ jsRound y :=
  Int.floor_le_floor (by linarith)

/-- C4 counterexample: `computeBackoffMs` applies **no cap**.  With the
default configuration (base 15000 ms, multiplier 2, jitter 0.2) there is no
configured cap bounding the computed delay over the attempts: the zero-jitter
delay grows without bound, so the claimed
`min(base * multiplier^(n-1), cap)` shape with a cap bound is false. -/
theorem backoff_has_no_cap :
    ¬ ∃ cap : ℚ, ∀ n : Nat, 1 ≤ n →
      ((computeBackoffMs defaultSchedCfg n 0 : ℤ) : ℚ) ≤ cap := by
  rintro ⟨cap, hcap⟩
  obtain ⟨k, hk⟩ := exists_nat_gt cap
  have hval : computeBackoffMs defaultSchedCfg (k + 1) 0
      = 15000 * 2 ^ k := by
    unfold computeBackoffMs
    dsimp only [defaultSchedCfg]
    have he : k + 1 - 1 = k := rfl
    rw [he]
    rw [mul_zero, add_zero]
    have hcast : (15000 : ℚ) * 2 ^ k = ((15000 * 2 ^ k : ℤ) : ℚ) := by
      push_cast
      ring
    rw [hcast, jsRound_intCast]
    have h1000 : (1000 : ℤ) ≤ 15000 * 2 ^ k := by
      have : (1 : ℤ) ≤ 2 ^ k := one_le_pow₀ (by norm_num)
      nlinarith
    exact max_eq_right h1000
  have h2 := hcap (k + 1) (by omega)
  rw [hval] at h2
  have h3 : (k : ℚ) < ((15000 * 2 ^ k : ℤ) : ℚ) := by
    push_cast
    have hk2 : (k : ℚ) < 2 ^ k := by
      have := Nat.lt_two_pow k
      calc (k : ℚ) < ((2 ^ k : ℕ) : ℚ) := by exact_mod_cast this
        _ = 2 ^ k := by push_cast; ring
    nlinarith
  linarith

/-- C4 (amended): the delay equals `base * multiplier^(n-1)` plus a jitter
term of magnitude at most the clamped jitter fraction times that base
value, rounded, floored at the hardcoded 1000 ms minimum; it is bounded
above only by `max 1000 (2 * base * multiplier^(n-1) + 1/2)` (no configured
cap exists), and at zero jitter it is non-decreasing in the attempt
number. -/
theorem backoff_delay_bounds (cfg : SchedCfg) (n : Nat) (u : ℚ)
    (hbase : 0 < cfg.backoffBaseMs) (hmult : 1 ≤ cfg.backoffMult)
    (hn : 1 ≤ n) (hu : |u| ≤ 1) :
    1000 ≤ computeBackoffMs cfg n u ∧
    ((computeBackoffMs cfg n u : ℤ) : ℚ)
      ≤ max 1000 (2 * (cfg.backoffBaseMs * cfg.backoffMult ^ (n - 1)) + 1 / 2) ∧
    (∃ jit : ℚ,
      |jit| ≤ max 0 (min 1 cfg.backoffJitter) *
        (cfg.backoffBaseMs * cfg.backoffMult ^ (n - 1)) ∧
      computeBackoffMs cfg n u
        = max 1000
            (jsRound (cfg.backoffBaseMs * cfg.backoffMult ^ (n - 1) + jit))) ∧
    (∀ m : Nat, n ≤ m → computeBackoffMs cfg n 0 ≤ computeBackoffMs cfg m 0) := by
  have hmpos : (0 : ℚ) < cfg.backoffMult := lt_of_lt_of_le one_pos hmult
  have hbpos : ∀ e : Nat, 0 < cfg.backoffBaseMs * cfg.backoffMult ^ e :=
    fun e => mul_pos hbase (pow_pos hmpos e)
  have hjf0 : (0 : ℚ) ≤ max 0 (min 1 cfg.backoffJitter) := le_max_left _ _
  have hjf1 : max 0 (min 1 cfg.backoffJitter) ≤ 1 :=
    max_le (by norm_num) (min_le_left _ _)
  refine ⟨computeBackoffMs_ge_1000 cfg n u, ?_, ?_, ?_⟩
  · unfold computeBackoffMs
    dsimp only
    set B := cfg.backoffBaseMs * cfg.backoffMult ^ (n - 1) with hB
    set jf := max 0 (min 1 cfg.backoffJitter) with hjf
    have hjit : B * jf * u ≤ B := by
      have h1 : B * jf * u ≤ |B * jf * u| := le_abs_self _
      have h2 : |B * jf * u| = B * jf * |u| := by
        rw [abs_mul, abs_mul, abs_of_pos (hbpos _), abs_of_nonneg hjf0]
      have h3 : B * jf * |u| ≤ B * jf * 1 :=
        mul_le_mul_of_nonneg_left hu (mul_nonneg (le_of_lt (hbpos _)) hjf0)
      have h4 : B * jf * 1 ≤ B * 1 * 1 := by
        have := mul_le_mul_of_nonneg_left hjf1 (le_of_lt (hbpos (n - 1)))
        nlinarith [hbpos (n - 1)]
      nlinarith
    have hround : ((jsRound (B + B * jf * u) : ℤ) : ℚ) ≤ 2 * B + 1 / 2 := by
      have := jsRound_le (B + B * jf * u)
      linarith
    rcases max_cases (1000 : ℤ) (jsRound (B + B * jf * u)) with ⟨heq, -⟩ | ⟨heq, -⟩
    · rw [heq]
      exact le_max_of_le_left (by norm_num)
    · rw [heq]
      exact le_max_of_le_right hround
  · exact ⟨cfg.backoffBaseMs * cfg.backoffMult ^ (n - 1) *
        max 0 (min 1 cfg.backoffJitter) * u, by
      have h2 : |cfg.backoffBaseMs * cfg.backoffMult ^ (n - 1) *
          max 0 (min 1 cfg.backoffJitter) * u|
          = cfg.backoffBaseMs * cfg.backoffMult ^ (n - 1) *
            max 0 (min 1 cfg.backoffJitter) * |u| := by
        rw [abs_mul, abs_mul, abs_of_pos (hbpos _), abs_of_nonneg hjf0]
      rw [h2]
      calc cfg.backoffBaseMs * cfg.backoffMult ^ (n - 1) *
            max 0 (min 1 cfg.backoffJitter) * |u|
          ≤ cfg.backoffBaseMs * cfg.backoffMult ^ (n - 1) *
            max 0 (min 1 cfg.backoffJitter) * 1 :=
            mul_le_mul_of_nonneg_left hu
              (mul_nonneg (le_of_lt (hbpos _)) hjf0)
        _ = max 0 (min 1 cfg.backoffJitter) *
            (cfg.backoffBaseMs * cfg.backoffMult ^ (n - 1)) := by ring, rfl⟩
  · intro m hm
    unfold computeBackoffMs
    dsimp only
    rw [mul_zero, add_zero, mul_zero, add_zero]
    apply max_le_max (le_refl _)
    apply jsRound_mono
    exact mul_le_mul_of_nonneg_left
      (pow_le_pow_right₀ hmult (Nat.sub_le_sub_right hm 1)) (le_of_lt hbase)

theorem backoff_delay_bounds_witness :
    1000 ≤ computeBackoffMs defaultSchedCfg 2 (1 / 2) ∧
    ((computeBackoffMs defaultSchedCfg 2 (1 / 2) : ℤ) : ℚ)
      ≤ max 1000 (2 * (defaultSchedCfg.backoffBaseMs *
          defaultSchedCfg.backoffMult ^ (2 - 1)) + 1 / 2) ∧
    (∃ jit : ℚ,
      |jit| ≤ max 0 (min 1 defaultSchedCfg.backoffJitter) *
        (defaultSchedCfg.backoffBaseMs *
          defaultSchedCfg.backoffMult ^ (2 - 1)) ∧
      computeBackoffMs defaultSchedCfg 2 (1 / 2)
        = max 1000
            (jsRound (defaultSchedCfg.backoffBaseMs *
              defaultSchedCfg.backoffMult ^ (2 - 1) + jit))) ∧
    (∀ m : Nat, 2 ≤ m →
      computeBackoffMs defaultSchedCfg 2 0 ≤ computeBackoffMs defaultSchedCfg m 0) :=
  backoff_delay_bounds defaultSchedCfg 2 (1 / 2) (by norm_num [defaultSchedCfg])
    (by norm_num [defaultSchedCfg]) (by norm_num)
    (by rw [abs_of_nonneg] <;> norm_num)

/-- A pending job with an unrecognized type. -/
def wJobUnknown : Job :=
  { id := 3, type := "frobnicate".data, runAt := 0, status := .pending,
    attempts := 0, payload := "{}".data, lastError := none, result := none }

/-- Store holding the unknown-type job. -/
def wStoreUnknown : Store := { jobs := [wJobUnknown], kv := [], nextId := 4 }

/-- A world in which every recognized branch would succeed and the payload
parses. -/
def wWorldOk : ExecWorld :=
  { payloadParses := true, payloadParseErr := [],
    createEnd := .endDone none none, deleteEnd := .endDone none none,
    disableEnd := .endDone none none }

/-- C1: violated by the code.  The executor marks the unknown-type job
`failed` (a terminal status) and resolves; `runJob` then unconditionally
marks the job `done`, overwriting the terminal `failed` — contradicting
both the specified state-machine closure and the scheduler's own comment
"If the executor didn't set terminal status, mark as done". -/
theorem terminal_failed_job_remarked_done :
    ((executorModel 3 0 wWorldOk
        (markJob wStoreUnknown wJobUnknown.id
          { status := some .running, attempts := some 1,
            lastError := some none })
        wJobUnknown).1.jobs.map Job.status = [.failed]) ∧
    ((executorModel 3 0 wWorldOk
        (markJob wStoreUnknown wJobUnknown.id
          { status := some .running, attempts := some 1,
            lastError := some none })
        wJobUnknown).2 = .resolve) ∧
    ((runJob defaultSchedCfg (executorModel 3 0 wWorldOk) 0 0
        wStoreUnknown wJobUnknown).jobs.map Job.status = [.done]) := by
  decide

/-- A pending job of type `mystery`. -/
def wJobMystery : Job :=
  { id := 9, type := "mystery".data, runAt := 0, status := .pending,
    attempts := 0, payload := "{}".data, lastError := none, result := none }

/-- Store holding the `mystery` job. -/
def wStoreMystery : Store := { jobs := [wJobMystery], kv := [], nextId := 10 }

/-- C8: half-violated by the code.  The executor does mark the
unknown-type job `failed` with the descriptive `Unknown job type: mystery`
error and never retries it — but because it returns normally, `runJob`
then overwrites the status with `done`, so the job's final status is
`done`, not `failed` as claimed. -/
theorem unknown_type_final_status_done :
    ((executorModel 3 0 wWorldOk
        (markJob wStoreMystery wJobMystery.id
          { status := some .running, attempts := some 1,
            lastError := some none })
        wJobMystery).1.jobs.map (fun j => (j.status, j.lastError))
      = [(.failed, some "Unknown job type: mystery".data)]) ∧
    ((runJob defaultSchedCfg (executorModel 3 0 wWorldOk) 0 0
        wStoreMystery wJobMystery).jobs.map Job.status = [.done]) := by
  decide

/-! ## The numeric-candidate-id mismatch

`upsertJob` stores `JSON.stringify(payload)`; a numeric `candidateId` is
rendered unquoted (`"candidateId":123`), while the `LIKE` pattern of
`findActiveJobByCandidate` requires the quoted form `"candidateId":"123"`.
The lemmas below show the pattern's 15-character core
`"candidateId":"` cannot occur anywhere in such a serialized payload —
in particular not smuggled in through a string field value, because
`JSON.stringify` escapes every `"` with a backslash. -/

/-- `p` occurs contiguously in `s` (propositional form of `occursIn`). -/
def OccPat (p s : List Char) : Prop := ∃ l r, s = l ++ p ++ r

theorem occursIn_iff_OccPat (p s : List Char) :
    occursIn p s = true ↔ OccPat p s := occursIn_iff p s

/-- The 15-character core of the `LIKE` pattern: `"candidateId":"`. -/
def patT : List Char := '"' :: "candidateId".data ++ ['"', ':', '"']

theorem candPattern_eq_patT_append (cid : List Char) :
    candPattern cid = patT ++ (cid ++ ['"']) := by
  simp [candPattern, patT]

theorem occ_candPattern_patT (cid s : List Char)
    (h : OccPat (candPattern cid) s) : OccPat patT s := by
  obtain ⟨l, r, rfl⟩ := h
  rw [candPattern_eq_patT_append]
  exact ⟨l, cid ++ ['"'] ++ r, by simp⟩

theorem occ_nil (p : List Char) (h : OccPat p []) : p = [] := by
  obtain ⟨l, r, hl⟩ := h
  cases l with
  | nil =>
    cases p with
    | nil => rfl
    | cons x xs => simp at hl
  | cons x xs => simp at hl

/-- If `p ++ r` equals `a ++ c :: b` and `c ∉ p`, then `p` is an initial
segment of `a`. -/
theorem pref_split (p : List Char) (c : Char) (hc : c ∉ p) :
    ∀ r a b, p ++ r = a ++ c :: b → ∃ a', a = p ++ a' := by
  induction p with
  | nil => exact fun r a b _ => ⟨a, rfl⟩
  | cons y p' ih =>
    intro r a b h
    cases a with
    | nil =>
      injection h with h1 h2
      exact absurd (h1 ▸ List.mem_cons_self y p') hc
    | cons x a' =>
      injection h with h1 h2
      obtain ⟨a'', ha''⟩ := ih (fun hm => hc (List.mem_cons_of_mem _ hm)) r a' b h2
      exact ⟨a'', by rw [ha'', h1, List.cons_append]⟩

/-- An occurrence cannot straddle a character absent from the pattern:
split the haystack there. -/
theorem occ_split (p : List Char) (hp : p ≠ []) (c : Char) (hc : c ∉ p) :
    ∀ a b, OccPat p (a ++ c :: b) → OccPat p a ∨ OccPat p b := by
  intro a
  induction a with
  | nil =>
    rintro b ⟨l, r, h⟩
    cases l with
    | nil =>
      cases p with
      | nil => exact absurd rfl hp
      | cons p0 p' =>
        simp only [List.nil_append, List.cons_append] at h
        injection h with h1 h2
        exact absurd (h1 ▸ List.mem_cons_self p0 p') hc
    | cons x l' =>
      simp only [List.nil_append, List.cons_append] at h
      injection h with h1 h2
      exact Or.inr ⟨l', r, h2⟩
  | cons x a' ih =>
    rintro b ⟨l, r, h⟩
    cases l with
    | nil =>
      simp only [List.nil_append, List.cons_append] at h
      obtain ⟨w, hw⟩ := pref_split p c hc r (x :: a') b h.symm
      exact Or.inl ⟨[], w, by simpa using hw⟩
    | cons y l' =>
      simp only [List.cons_append] at h
      injection h with h1 h2
      rcases ih b ⟨l', r, h2⟩ with hA | hB
      · obtain ⟨l₂, r₂, hh⟩ := hA
        exact Or.inl ⟨x :: l₂, r₂, by simp [hh]⟩
      · exact Or.inr hB

theorem occ_cons_elim (p : List Char) (hp : p ≠ []) (c : Char) (hc : c ∉ p)
    (b : List Char) (h : OccPat p (c :: b)) : OccPat p b := by
  rcases occ_split p hp c hc [] b (by simpa using h) with h' | h'
  · exact absurd (occ_nil p h') hp
  · exact h'

theorem occ_last_elim (p : List Char) (hp : p ≠ []) (c : Char) (hc : c ∉ p)
    (a : List Char) (h : OccPat p (a ++ [c])) : OccPat p a := by
  rcases occ_split p hp c hc a [] h with h' | h'
  · exact h'
  · exact absurd (occ_nil p h') hp

/-- Character counts only grow from pattern to haystack. -/
theorem occ_count (p s : List Char) (h : OccPat p s) (c : Char) :
    p.count c ≤ s.count c := by
  obtain ⟨l, r, rfl⟩ := h
  simp [List.count_append]
  omega

/-- In `esc v` every `"` is preceded by a backslash. -/
theorem escQuote (v : List Char) :
    ∀ l r, esc v = l ++ '"' :: r → ∃ l', l = l' ++ ['\\'] := by
  induction v with
  | nil =>
    intro l r h
    simp only [esc] at h
    cases l <;> simp at h
  | cons c cs ih =>
    intro l r h
    simp only [esc] at h
    by_cases hc : c = '"' ∨ c = '\\'
    · rw [if_pos hc] at h
      cases l with
      | nil =>
        injection h with h1 h2
        exact absurd h1 (by decide)
      | cons x l₂ =>
        injection h with h1 h2
        cases l₂ with
        | nil =>
          exact ⟨[], by simp [← h1]⟩
        | cons y l₃ =>
          injection h2 with h3 h4
          obtain ⟨l', hl'⟩ := ih l₃ r h4
          exact ⟨x :: y :: l', by simp [hl']⟩
    · rw [if_neg hc] at h
      cases l with
      | nil =>
        injection h with h1 h2
        exact absurd (Or.inl h1) hc
      | cons x l₂ =>
        injection h with h1 h2
        obtain ⟨l', hl'⟩ := ih l₂ r h2
        exact ⟨x :: l', by simp [hl']⟩

theorem glast (a b : List Char) (hb : b ≠ []) :
    (a ++ b).getLast? = b.getLast? := by
  induction a with
  | nil => rfl
  | cons x a' ih =>
    rw [List.cons_append]
    rw [List.getLast?_cons]
    rw [ih]
    cases hx : b.getLast? with
    | none => exact absurd (List.getLast?_eq_none_iff.mp hx) hb
    | some y => rfl

/-- `candidateId` ends in `d`, not in a backslash. -/
theorem not_K_ends_bs (l' : List Char)
    (h : "candidateId".data = l' ++ ['\\']) : False := by
  have h1 := congrArg List.getLast? h
  rw [glast l' ['\\'] (by simp)] at h1
  simp at h1

/-- Nor does any extension `A ++ '"' :: candidateId`. -/
theorem not_ext_ends_bs (A l' : List Char)
    (h : A ++ '"' :: "candidateId".data = l' ++ ['\\']) : False := by
  have h1 := congrArg List.getLast? h
  rw [glast A ('"' :: "candidateId".data) (by simp),
      glast l' ['\\'] (by simp)] at h1
  simp at h1

/-- First-quote decomposition is unique over quote-free prefixes. -/
theorem nq_eq (a : List Char) (ha : '"' ∉ a) :
    ∀ b x y, '"' ∉ b → a ++ '"' :: x = b ++ '"' :: y → a = b ∧ x = y := by
  induction a with
  | nil =>
    intro b x y hb h
    cases b with
    | nil =>
      injection h with h1 h2
      exact ⟨rfl, h2⟩
    | cons b0 b' =>
      injection h with h1 h2
      exact absurd (h1.symm ▸ List.mem_cons_self b0 b') hb
  | cons a0 a' ih =>
    intro b x y hb h
    cases b with
    | nil =>
      injection h with h1 h2
      exact absurd (h1 ▸ List.mem_cons_self a0 a') ha
    | cons b0 b' =>
      injection h with h1 h2
      obtain ⟨hab, hxy⟩ := ih (fun hm => ha (List.mem_cons_of_mem _ hm)) b' x y
        (fun hm => hb (List.mem_cons_of_mem _ hm)) h2
      exact ⟨by rw [h1, hab], hxy⟩

theorem digitCh_ne_quote (d : Nat) : digitCh d ≠ '"' := by
  unfold digitCh
  repeat' split
  all_goals decide

theorem natCharsAux_no_quote (n : Nat) : '"' ∉ natCharsAux n := by
  induction n using Nat.strong_induction_on with
  | _ n ih =>
    unfold natCharsAux
    split
    · simp
    · rename_i hnz
      intro hmem
      rcases List.mem_append.mp hmem with hm | hm
      · exact ih (n / 10)
          (Nat.div_lt_self (Nat.pos_of_ne_zero hnz) (by decide)) hm
      · exact digitCh_ne_quote (n % 10) (List.mem_singleton.mp hm).symm

theorem natChars_no_quote (n : Nat) : '"' ∉ natChars n := by
  unfold natChars
  split
  · decide
  · exact natCharsAux_no_quote n

/-- A numeric member `"k":123` contains only two quotes, so the
three-quote pattern cannot occur in it. -/
theorem no_patT_in_num_field (k : List Char) (hk : '"' ∉ k) (m : Nat) :
    ¬ OccPat patT ('"' :: k ++ '"' :: ':' :: natChars m) := by
  intro h
  have hcnt := occ_count _ _ h '"'
  have hT : patT.count '"' = 3 := by decide
  have hkc : k.count '"' = 0 := List.count_eq_zero.mpr hk
  have hnc : (natChars m).count '"' = 0 :=
    List.count_eq_zero.mpr (natChars_no_quote m)
  have hhay : ('"' :: k ++ '"' :: ':' :: natChars m).count '"' = 2 := by
    simp [List.count_cons, List.count_append, hkc, hnc]
  omega

/-- Likewise for a `"k":null` member. -/
theorem no_patT_in_null_field (k : List Char) (hk : '"' ∉ k) :
    ¬ OccPat patT ('"' :: k ++ '"' :: ':' :: "null".data) := by
  intro h
  have hcnt := occ_count _ _ h '"'
  have hT : patT.count '"' = 3 := by decide
  have hkc : k.count '"' = 0 := List.count_eq_zero.mpr hk
  have hnl : ("null".data).count '"' = 0 := by decide
  have hhay : ('"' :: k ++ '"' :: ':' :: "null".data).count '"' = 2 := by
    simp [List.count_cons, List.count_append, hkc, hnl]
  omega

theorem patT_append (r : List Char) :
    patT ++ r = '"' :: ("candidateId".data ++ '"' :: ':' :: '"' :: r) := by
  simp [patT]

/-- The 14 characters of the pattern before its final quote. -/
def patHead : List Char := '"' :: ("candidateId".data ++ ['"', ':'])

theorem patT_head_append (r : List Char) :
    '"' :: ("candidateId".data ++ '"' :: ':' :: '"' :: r)
      = patHead ++ '"' :: r := by
  simp [patHead]

/-- `esc v` never contains the 14-character pattern head: its final quote
would have to follow the letter `d` unescaped. -/
theorem esc_no_patHead (v A y : List Char)
    (h : esc v = A ++ patHead ++ y) : False := by
  have h' : esc v = (A ++ '"' :: "candidateId".data) ++ '"' :: ':' :: y := by
    rw [h]
    simp [patHead]
  obtain ⟨l', hl'⟩ := escQuote v _ _ h'
  exact not_ext_ends_bs A l' hl'

/-- A string member `"k":"<escaped v>"` never contains
`"candidateId":"`: the only place the letters could sit unescaped after a
quote is the key itself — excluded for keys other than `candidateId` — and
inside the escaped value every quote is preceded by a backslash, which the
pattern does not allow. -/
theorem no_patT_in_str_field (k v : List Char) (hk : '"' ∉ k)
    (hkK : k ≠ "candidateId".data)
    (hOcc : OccPat patT
      ('"' :: (k ++ '"' :: ':' :: '"' :: (esc v ++ ['"'])))) : False := by
  obtain ⟨l, r, h⟩ := hOcc
  rw [List.append_assoc, patT_append] at h
  cases l with
  | nil =>
    simp only [List.nil_append] at h
    injection h with hdash1 h2
    obtain ⟨hKk, -⟩ := nq_eq k hk "candidateId".data _ _ (by decide) h2
    exact hkK hKk
  | cons c l₂ =>
    injection h with h1 h2
    rcases List.append_eq_append_iff.mp h2 with ⟨w, hw1, hw2⟩ | ⟨w, hw1, hw2⟩
    · -- l₂ = k ++ w and the tail of the member equals w ++ (pattern tail)
      cases w with
      | nil =>
        simp only [List.nil_append] at hw2
        injection hw2 with hdash2 hw3
        rw [List.cons_append] at hw3
        injection hw3 with hq hdash3
        exact absurd hq (by decide)
      | cons w0 w₂ =>
        rw [List.cons_append] at hw2
        injection hw2 with hw0 hw3
        cases w₂ with
        | nil =>
          simp only [List.nil_append] at hw3
          injection hw3 with hq hdash4
          exact absurd hq (by decide)
        | cons w1 w₃ =>
          rw [List.cons_append] at hw3
          injection hw3 with hw1' hw4
          cases w₃ with
          | nil =>
            simp only [List.nil_append] at hw4
            injection hw4 with hdash5 hw5
            rcases List.append_eq_append_iff.mp hw5 with
              ⟨z, hz1, hz2⟩ | ⟨z, hz1, hz2⟩
            · have := congrArg List.length hz2
              simp [List.length_append] at this
              omega
            · cases z with
              | nil => simp at hz2
              | cons z0 z₄ =>
                rw [List.cons_append] at hz2
                injection hz2 with hz0 hdash6
                rw [← hz0] at hz1
                obtain ⟨l', hl'⟩ := escQuote v _ _ hz1
                exact not_K_ends_bs l' hl'
          | cons w2 w₅ =>
            rw [List.cons_append] at hw4
            injection hw4 with hw2' hw6
            rw [patT_head_append, ← List.append_assoc] at hw6
            rcases List.append_eq_append_iff.mp hw6 with
              ⟨z, hz1, hz2⟩ | ⟨z, hz1, hz2⟩
            · cases z with
              | nil =>
                rw [List.append_nil] at hz1
                exact esc_no_patHead v w₅ [] (by rw [← hz1]; simp)
              | cons z0 z₁ =>
                have := congrArg List.length hz2
                simp [List.length_append] at this
            · exact esc_no_patHead v w₅ z (by rw [hz1])
    · -- the key contains the pattern's opening quote, or the whole
      -- pattern starts at the key's closing quote
      cases w with
      | nil =>
        simp only [List.nil_append] at hw2
        injection hw2 with hdash7 hw3
        rw [List.cons_append] at hw3
        injection hw3 with hq hdash8
        exact absurd hq (by decide)
      | cons w0 w₂ =>
        rw [List.cons_append] at hw2
        injection hw2 with hw0 hdash9
        apply hk
        rw [hw1, ← hw0]
        exact List.mem_append_right l₂ (List.mem_cons_self _ _)

/-- Conditions under which a serialized member cannot host the pattern:
a quote-free key, and for string members a key other than `candidateId`. -/
def fieldOk : List Char × JVal → Prop
  | (k, .s _) => '"' ∉ k ∧ k ≠ "candidateId".data
  | (k, .n _) => '"' ∉ k
  | (k, .null) => '"' ∉ k

theorem no_patT_in_fieldSer (f : List Char × JVal) (hf : fieldOk f) :
    ¬ OccPat patT (fieldSer f) := by
  obtain ⟨k, val⟩ := f
  cases val with
  | s v =>
    intro h
    exact no_patT_in_str_field k v hf.1 hf.2 (by simpa [fieldSer] using h)
  | n m =>
    intro h
    exact no_patT_in_num_field k hf m (by simpa [fieldSer] using h)
  | null =>
    intro h
    exact no_patT_in_null_field k hf (by simpa [fieldSer] using h)

theorem no_patT_in_fieldsSer (fs : List (List Char × JVal))
    (hfs : ∀ f ∈ fs, fieldOk f) : ¬ OccPat patT (fieldsSer fs) := by
  induction fs with
  | nil =>
    intro h
    have := occ_nil _ h
    simp [patT] at this
  | cons f rest ih =>
    cases rest with
    | nil =>
      intro h
      exact no_patT_in_fieldSer f (hfs f (by simp)) (by simpa [fieldsSer] using h)
    | cons g rest' =>
      intro h
      rcases occ_split patT (by decide) ',' (by decide) (fieldSer f)
          (fieldsSer (g :: rest')) h with h1 | h1
      · exact no_patT_in_fieldSer f (hfs f (by simp)) h1
      · exact ih (fun x hx => hfs x (List.mem_cons_of_mem f hx)) h1

/-- The pattern core `"candidateId":"` occurs nowhere in the serialization
of an object whose members satisfy `fieldOk`. -/
theorem no_patT_in_objSer (fs : List (List Char × JVal))
    (hfs : ∀ f ∈ fs, fieldOk f) : ¬ OccPat patT (objSer fs) := by
  intro h
  have h1 : OccPat patT (fieldsSer fs ++ ['}']) :=
    occ_cons_elim patT (by decide) '{' (by decide) _ h
  have h2 : OccPat patT (fieldsSer fs) :=
    occ_last_elim patT (by decide) '}' (by decide) _ h1
  exact no_patT_in_fieldsSer fs hfs h2

/-- Every member the prehire route serializes is `fieldOk` when the
inbound candidate id is numeric: the `candidateId` member itself is then a
JSON number, and all other members use fixed alphabetic keys different
from `candidateId`. -/
theorem prehirePayloadFields_ok (cfg : PrehireCfg) (req : PrehireReq)
    (idn : Nat) (hid : req.id = some (.n idn)) :
    ∀ f ∈ prehirePayloadFields cfg req, fieldOk f := by
  intro f hf
  unfold prehirePayloadFields at hf
  rw [hid] at hf
  simp only [List.mem_append] at hf
  rcases hf with ((((hf | hf) | hf) | hf) | hf) | hf
  · simp only [List.mem_cons, List.not_mem_nil, or_false,
      Option.getD_some] at hf
    rcases hf with rfl | rfl | rfl
    · change '"' ∉ _
      decide
    · exact ⟨by decide, by decide⟩
    · exact ⟨by decide, by decide⟩
  · rcases hem : req.email with - | ev
    · rw [hem] at hf
      simp at hf
    · rw [hem] at hf
      simp only [List.mem_singleton] at hf
      subst hf
      exact ⟨by decide, by decide⟩
  · rcases hemp : req.employeeId with - | pv
    · rw [hemp] at hf
      simp at hf
    · rw [hemp] at hf
      simp only [List.mem_singleton] at hf
      subst hf
      cases pv with
      | s w => exact ⟨by decide, by decide⟩
      | n w =>
        change '"' ∉ _
        decide
      | null =>
        change '"' ∉ _
        decide
  · simp only [List.mem_cons, List.not_mem_nil, or_false] at hf
    rcases hf with rfl | rfl
    · rcases hjd : req.joiningdate with - | jv
      · change '"' ∉ _
        decide
      · change fieldOk (_, if jv = [] then JVal.null else JVal.s jv)
        split
        · change '"' ∉ _
          decide
        · exact ⟨by decide, by decide⟩
    · change '"' ∉ _
      decide
  · rcases hdom : cfg.domain with - | dv
    · rw [hdom] at hf
      simp at hf
    · rw [hdom] at hf
      simp only [List.mem_singleton] at hf
      subst hf
      exact ⟨by decide, by decide⟩
  · rcases het : req.employeeType with - | tv
    · rw [het] at hf
      simp at hf
    · rw [het] at hf
      simp only [List.mem_cons, List.not_mem_nil, or_false] at hf
      rcases hf with rfl | rfl <;> exact ⟨by decide, by decide⟩

/-- C9: a candidate id stored in a job payload as a JSON number — as the
prehire route produces when the inbound trigger supplies a numeric id and
the payload goes through `JSON.stringify` — is never matched by
`findActiveJobByCandidate`: the `LIKE` pattern requires the quoted form
`"candidateId":"<id>"`, which cannot occur anywhere in such a serialized
payload (string values cannot fake it either, since their quotes are
escaped); consequently the dedup/supersede lookup never returns such a
job, for any store and any candidate id searched. -/
theorem numeric_candidate_id_never_matched (cfg : PrehireCfg)
    (req : PrehireReq) (idn : Nat) (hid : req.id = some (.n idn)) :
    (∀ cid, occursIn (candPattern cid) (prehirePayload cfg req) = false) ∧
    (∀ jobs ty cid j, findActiveJobByCandidate jobs ty cid = some j →
      j.payload ≠ prehirePayload cfg req) := by
  have hocc : ∀ cid, ¬ OccPat (candPattern cid) (prehirePayload cfg req) := by
    intro cid hOcc
    exact no_patT_in_objSer (prehirePayloadFields cfg req)
      (prehirePayloadFields_ok cfg req idn hid)
      (occ_candPattern_patT cid _ hOcc)
  constructor
  · intro cid
    have h1 := hocc cid
    rw [← occursIn_iff_OccPat] at h1
    exact Bool.eq_false_iff.mpr h1
  · intro jobs ty cid j hfind heq
    obtain ⟨-, -, -, hmatch⟩ := findActive_spec jobs ty cid j hfind
    rw [heq] at hmatch
    exact hocc cid ((occursIn_iff_OccPat _ _).mp hmatch)

/-- A prehire request whose inbound candidate id is the JSON number 123. -/
def wReqNumeric : PrehireReq :=
  { id := some (.n 123), firstname := some "Jo".data,
    lastname := some "Doe".data, email := none, employeeId := none,
    joiningdate := none, employeeType := none, joinDay := none }

theorem numeric_candidate_id_never_matched_witness :
    occursIn (candPattern (natChars 123)) (prehirePayload wCfgP wReqNumeric)
      = false :=
  (numeric_candidate_id_never_matched wCfgP wReqNumeric 123 rfl).1
    (natChars 123)

end Engine
